import Mathlib

/-!
Verification of `src/mycongif.py` (class `ConfigManager`), a wrapper around
Python's `configparser.ConfigParser` (with its default `BasicInterpolation`
and `optionxform = str.lower`).

Python strings are modelled as `List Char`; Python dicts (which preserve
insertion order) as association lists.  All behaviour is translated from
the source of `mycongif.py` and from the CPython `configparser` module it
delegates to: key lowercasing, the reserved `DEFAULT` section, the
`%`-interpolation performed by `set` (`before_set`) and `get`
(`before_get` and `_interpolate_some`), the INI reader `_read` and writer
`write`.  File I/O is represented by passing file contents explicitly
(`Option PyStr`: `none` means the file does not exist).
-/

deriving instance DecidableEq for Except

namespace Mycongif

/-- Python `str` values, as lists of characters. -/
abbrev PyStr := List Char

/-- Python `str.lower` / the default `ConfigParser.optionxform`. -/
def pyLower (s : PyStr) : PyStr := s.map Char.toLower

/-- Python `str.lstrip()` (strip leading whitespace). -/
def pyLStrip (s : PyStr) : PyStr := s.dropWhile Char.isWhitespace

/-- Python `str.rstrip()` (strip trailing whitespace). -/
def pyRStrip (s : PyStr) : PyStr := (s.reverse.dropWhile Char.isWhitespace).reverse

/-- Python `str.strip()`. -/
def pyStrip (s : PyStr) : PyStr := pyRStrip (pyLStrip s)

/-- An insertion-ordered mapping (Python `dict`) with `PyStr` keys. -/
abbrev AList (β : Type) := List (PyStr × β)

/-- `m[k]` lookup in an ordered mapping (first matching key). -/
def odLookup {β : Type} : AList β → PyStr → Option β
  | [], _ => none
  | (k', v) :: e, k => if k' = k then some v else odLookup e k

/-- Python `m[k] = v`: overwrite in place if the key exists, else append. -/
def odSet {β : Type} : AList β → PyStr → β → AList β
  | [], k, v => [(k, v)]
  | (k', v') :: e, k, v => if k' = k then (k', v) :: e else (k', v') :: odSet e k v

/-- Python `del m[k]` (no-op here when the key is absent; callers guard). -/
def odDel {β : Type} : AList β → PyStr → AList β
  | [], _ => []
  | (k', v') :: e, k => if k' = k then e else (k', v') :: odDel e k

/-- One section's key-value pairs (`ConfigParser._sections[name]`). -/
abbrev Entries := AList PyStr

/-- The in-memory state of a `ConfigParser`: the `DEFAULT` pseudo-section
(`self._defaults`) and the ordered ordinary sections (`self._sections`). -/
structure ConfigStore where
  defaults : Entries
  sections : AList Entries
deriving DecidableEq

/-- `ConfigParser.default_section`, the reserved section name. -/
def defaultSection : PyStr := "DEFAULT".toList

/-- The exceptions that the modelled `configparser` code paths can raise. -/
inductive PyExc
  | noSection (s : PyStr)
  | noOption
  | valueErr
  | dupSection
  | dupOption
  | missingHeader
  | parsingErr
  | interpInvalid
  | interpMissing
  | interpDepth
  | osError
deriving DecidableEq

/-- A fresh `configparser.ConfigParser()` state. -/
def emptyStore : ConfigStore := ⟨[], []⟩

/-- `ConfigParser.has_section`: membership in `self._sections` (the
`DEFAULT` pseudo-section is never there). -/
def has_section (st : ConfigStore) (s : PyStr) : Bool :=
  (odLookup st.sections s).isSome

/-- `ConfigParser.add_section`: rejects the reserved name with
`ValueError`, duplicates with `DuplicateSectionError`, otherwise appends
an empty section. -/
def add_section (st : ConfigStore) (s : PyStr) : Except PyExc ConfigStore :=
  if s = defaultSection then .error .valueErr
  else if (odLookup st.sections s).isSome then .error .dupSection
  else .ok { st with sections := st.sections ++ [(s, [])] }

/-- `str.replace('%%', '')` as used in `BasicInterpolation.before_set`
(left-to-right, non-overlapping). -/
def removeEsc : PyStr → PyStr
  | [] => []
  | [c] => [c]
  | c :: c2 :: rest2 =>
    if c = '%' ∧ c2 = '%' then removeEsc rest2 else c :: removeEsc (c2 :: rest2)

/-- The scanning loop of `re.sub` with the pattern `%\(([^)]+)\)s` and
empty replacement, as in `BasicInterpolation.before_set`: at each
position try to match; on a match skip it, otherwise keep one character
and advance.  The structural fuel only needs to be at least the text
length (every step consumes at least one character), so the `0` case is
unreachable from `keycreSub`. -/
def keycreGo : Nat → PyStr → PyStr
  | _, [] => []
  | 0, s => s
  | _ + 1, [c] => [c]
  | cf + 1, c :: c2 :: rest2 =>
    if c = '%' ∧ c2 = '(' then
      let nm := rest2.takeWhile (fun x => x ≠ ')')
      match rest2.dropWhile (fun x => x ≠ ')') with
      | _ :: c3 :: rest4 =>
        if nm ≠ [] ∧ c3 = 's' then keycreGo cf rest4 else c :: keycreGo cf (c2 :: rest2)
      | _ => c :: keycreGo cf (c2 :: rest2)
    else c :: keycreGo cf (c2 :: rest2)

/-- `re.sub(KEYCRE, '', tmp_value)` from `BasicInterpolation.before_set`. -/
def keycreSub (s : PyStr) : PyStr := keycreGo s.length s

/-- `BasicInterpolation.before_set` succeeds iff, after deleting escaped
percents and valid `%(name)s` references, no `%` remains. -/
def beforeSetOk (v : PyStr) : Prop := '%' ∉ keycreSub (removeEsc v)

instance (v : PyStr) : Decidable (beforeSetOk v) := by
  unfold beforeSetOk; infer_instance

/-- `ConfigParser.set` (via `RawConfigParser.set`): validates interpolation
syntax of a non-empty value (`before_set`, raising `ValueError`), writes to
`self._defaults` when the section is falsy or the reserved name, otherwise
to the named section (raising `NoSectionError` when absent).  The option
name is passed through `optionxform` (lowercased). -/
def config_set (st : ConfigStore) (s k v : PyStr) : Except PyExc ConfigStore :=
  if v ≠ [] ∧ ¬ beforeSetOk v then .error .valueErr
  else if s = [] ∨ s = defaultSection then
    .ok { st with defaults := odSet st.defaults (pyLower k) v }
  else
    match odLookup st.sections s with
    | some e => .ok { st with sections := odSet st.sections s (odSet e (pyLower k) v) }
    | none => .error (.noSection s)

/-- The lookup map `d` used by `get` and interpolation: the chain of the
section's entries over `self._defaults` (the `vars` argument is never
passed by `mycongif.py`, so it is absent). -/
def chainLookup (st : ConfigStore) (vars : Entries) (k : PyStr) : Option PyStr :=
  match odLookup vars k with
  | some v => some v
  | none => odLookup st.defaults k

/-- The `while rest` scanning loop of
`BasicInterpolation._interpolate_some`: `%%` yields a literal `%`;
`%(name)s` is looked up in the chain map, the found value being expanded
one level deeper (via `expand`) when it itself contains `%`; any other
use of `%` raises `InterpolationSyntaxError`.  The structural fuel `cf`
only needs to be at least the remaining text length (every step consumes
at least one character), so its `0` case is unreachable from
`interpGet`. -/
def interpLoop (st : ConfigStore) (vars : Entries)
    (expand : PyStr → Except PyExc PyStr) : Nat → PyStr → Except PyExc PyStr
  | _, [] => .ok []
  | 0, _ :: _ => .error .interpInvalid
  | cf + 1, c :: rest =>
    if c = '%' then
      match rest with
      | [] => .error .interpInvalid
      | c2 :: rest2 =>
        if c2 = '%' then
          match interpLoop st vars expand cf rest2 with
          | .ok t => .ok ('%' :: t)
          | .error e => .error e
        else if c2 = '(' then
          let nm := rest2.takeWhile (fun x => x ≠ ')')
          match rest2.dropWhile (fun x => x ≠ ')') with
          | _ :: c3 :: rest4 =>
            if nm = [] ∨ c3 ≠ 's' then .error .interpInvalid
            else
              match chainLookup st vars (pyLower nm) with
              | none => .error .interpMissing
              | some v =>
                match (if '%' ∈ v then expand v else .ok v) with
                | .ok expanded =>
                  match interpLoop st vars expand cf rest4 with
                  | .ok t => .ok (expanded ++ t)
                  | .error e => .error e
                | .error e => .error e
          | _ => .error .interpInvalid
        else .error .interpInvalid
    else
      match interpLoop st vars expand cf rest with
      | .ok t => .ok (c :: t)
      | .error e => .error e

/-- `BasicInterpolation._interpolate_some`: the depth fuel is
`MAX_INTERPOLATION_DEPTH + 1 - depth`, so the entry check
`depth > MAX_INTERPOLATION_DEPTH` becomes `dfuel = 0`
(`InterpolationDepthError`); otherwise the text is scanned by
`interpLoop`, nested references being interpolated one level deeper. -/
def interpGet (st : ConfigStore) (vars : Entries) : Nat → PyStr → Except PyExc PyStr
  | 0, _ => .error .interpDepth
  | dfuel + 1, s => interpLoop st vars (fun v => interpGet st vars dfuel v) s.length s

/-- `RawConfigParser._unify_values` restricted to what `get` consumes: the
section's entry list (empty for an absent `DEFAULT`), or `NoSectionError`. -/
def unify_values (st : ConfigStore) (s : PyStr) : Except PyExc Entries :=
  match odLookup st.sections s with
  | some e => .ok e
  | none => if s = defaultSection then .ok [] else .error (.noSection s)

/-- `ConfigParser.get(section, option)` with interpolation: chain lookup of
the lowercased option (`NoOptionError` when absent), then `before_get`
(i.e. `_interpolate_some` starting at depth 1, hence fuel 10). -/
def config_get (st : ConfigStore) (s k : PyStr) : Except PyExc PyStr :=
  match unify_values st s with
  | .error e => .error e
  | .ok vars =>
    match chainLookup st vars (pyLower k) with
    | none => .error .noOption
    | some v => interpGet st vars 10 v

/-- `ConfigManager.add_key`: create the section when `has_section` is
false, then `config.set` the stringified value. -/
def add_key (st : ConfigStore) (s k v : PyStr) : Except PyExc ConfigStore :=
  match (if has_section st s then .ok st else add_section st s : Except PyExc ConfigStore) with
  | .error e => .error e
  | .ok st1 => config_set st1 s k v

/-- `ConfigManager.get_key`: `config.get` with every exception collapsed
to the caller-supplied default (`except (NoSectionError, NoOptionError)`
and the catch-all `except Exception`). -/
def get_key {α : Type} (st : ConfigStore) (s k : PyStr) (d : α) : PyStr ⊕ α :=
  match config_get st s k with
  | .ok v => .inl v
  | .error _ => .inr d

/-- Python `dict.update`: fold the right mapping into the left. -/
def odUpdate (d e : Entries) : Entries :=
  e.foldl (fun acc kv => odSet acc kv.1 kv.2) d

/-- The value interpolation loop of `RawConfigParser.items(section)`:
interpolate each merged value with the merged mapping as lookup chain,
propagating the first interpolation error. -/
def itemsInterp (st : ConfigStore) (merged : Entries) : Entries → Except PyExc Entries
  | [] => .ok []
  | kv :: rest =>
    match interpGet st merged 10 kv.2 with
    | .error e => .error e
    | .ok v =>
      match itemsInterp st merged rest with
      | .error e => .error e
      | .ok r => .ok ((kv.1, v) :: r)

/-- `RawConfigParser.items(section)`: merge `self._defaults` with the
section's entries (defaults first, section values winning in place) and
interpolate each value. -/
def config_items (st : ConfigStore) (s : PyStr) : Except PyExc Entries :=
  match odLookup st.sections s with
  | some e => itemsInterp st (odUpdate st.defaults e) (odUpdate st.defaults e)
  | none =>
    if s = defaultSection then itemsInterp st st.defaults st.defaults
    else .error (.noSection s)

/-- `ConfigManager.get_section`: the section's items as a dict, or `{}`
when `has_section` is false.  (Interpolation errors from `items`
propagate: the method has no `try`.) -/
def get_section (st : ConfigStore) (s : PyStr) : Except PyExc Entries :=
  if has_section st s then config_items st s else .ok []

/-- The key iteration order of `get_section`'s result (the `orig_keys`
of `items`, computed before any value interpolation). -/
def sectionKeys (st : ConfigStore) (s : PyStr) : List PyStr :=
  match odLookup st.sections s with
  | some e => (odUpdate st.defaults e).map Prod.fst
  | none => []

/-- `RawConfigParser.has_option`: the defaults for a falsy or reserved
section name; `NoSectionError` for an absent ordinary section; otherwise
membership in the section or in the defaults. -/
def has_option (st : ConfigStore) (s k : PyStr) : Except PyExc Bool :=
  if s = [] ∨ s = defaultSection then
    .ok (odLookup st.defaults (pyLower k)).isSome
  else
    match odLookup st.sections s with
    | none => .error (.noSection s)
    | some e => .ok ((odLookup e (pyLower k)).isSome || (odLookup st.defaults (pyLower k)).isSome)

/-- `RawConfigParser.remove_option`: delete from the defaults or from the
named section (`NoSectionError` when absent), reporting whether the
option existed there. -/
def remove_option (st : ConfigStore) (s k : PyStr) : Except PyExc (Bool × ConfigStore) :=
  if s = [] ∨ s = defaultSection then
    .ok ((odLookup st.defaults (pyLower k)).isSome,
         { st with defaults := odDel st.defaults (pyLower k) })
  else
    match odLookup st.sections s with
    | none => .error (.noSection s)
    | some e =>
      .ok ((odLookup e (pyLower k)).isSome,
           { st with sections := odSet st.sections s (odDel e (pyLower k)) })

/-- `ConfigManager.remove_key`: `has_option` (which may raise
`NoSectionError`), then `remove_option` and `True`, else `False`. -/
def remove_key (st : ConfigStore) (s k : PyStr) : Except PyExc (Bool × ConfigStore) :=
  match has_option st s k with
  | .error e => .error e
  | .ok b =>
    if b then
      match remove_option st s k with
      | .error e => .error e
      | .ok (_, st') => .ok (true, st')
    else .ok (false, st)

/-- `ConfigManager.remove_section`: remove the section if present,
reporting success; never raises. -/
def remove_section (st : ConfigStore) (s : PyStr) : Bool × ConfigStore :=
  if has_section st s then (true, { st with sections := odDel st.sections s })
  else (false, st)

/-! ### The INI writer (`RawConfigParser.write` / `_write_section`) -/

/-- `str(value).replace('\n', '\n\t')` applied to each value on write. -/
def replaceNlTab (v : PyStr) : PyStr :=
  v.flatMap (fun c => if c = '\n' then ['\n', '\t'] else [c])

/-- `RawConfigParser._write_section`: the header line, one
`key = value` line per entry (with the delimiter ` = `), and a blank
line. -/
def writeSectionLines (nm : PyStr) (es : Entries) : List PyStr :=
  ('[' :: (nm ++ [']'])) ::
    (es.map (fun kv => kv.1 ++ (' ' :: '=' :: ' ' :: replaceNlTab kv.2)) ++ [[]])

/-- `RawConfigParser.write`: the `DEFAULT` section first when non-empty,
then every ordinary section in order. -/
def writeLines (st : ConfigStore) : List PyStr :=
  (if st.defaults = [] then [] else writeSectionLines defaultSection st.defaults) ++
    st.sections.flatMap (fun se => writeSectionLines se.1 se.2)

/-- The full file text produced by `save_config`: each line followed by
a newline character. -/
def writeConfig (st : ConfigStore) : PyStr :=
  (writeLines st).flatMap (fun l => l ++ ['\n'])

/-! ### The INI reader (`RawConfigParser._read`)

During reading, an option's value is kept as the list of its parts
(the first line plus continuation lines); `_join_multiline_values` joins
them with newlines and strips trailing whitespace at the end. -/

/-- The mutable state of `RawConfigParser._read`: the structures being
filled (values as part lists), the current section name (`sectname`,
where the reserved name denotes `self._defaults`), `optname`,
`indent_level`, `elements_added` (split into seen sections and seen
`(section, option)` pairs) and whether a recoverable parsing error was
recorded (`e = self._handle_error(...)`). -/
structure RState where
  defaults : AList (List PyStr)
  sections : AList (AList (List PyStr))
  sectname : Option PyStr
  optname : Option PyStr
  indent : Nat
  seenSects : List PyStr
  seenOpts : List (PyStr × PyStr)
  hadErr : Bool
deriving DecidableEq

/-- The initial `_read` state of a fresh parser. -/
def initRState : RState := ⟨[], [], none, none, 0, [], [], false⟩

/-- Splitting file contents into lines at newline characters (Python's
file iteration; the terminating newlines themselves carry no information
for `_read`, which strips each line). -/
def splitLines : PyStr → List PyStr
  | [] => [[]]
  | c :: r =>
    if c = '\n' then [] :: splitLines r
    else
      match splitLines r with
      | [] => [[c]]
      | l :: ls => (c :: l) :: ls

/-- A full-line comment: the stripped line starts with `#` or `;`
(the parser's `comment_prefixes`). -/
def isCommentLine (stripped : PyStr) : Bool :=
  match stripped with
  | c :: _ => c = '#' || c = ';'
  | [] => false

/-- `cur_indent_level`: the offset of the first non-whitespace character. -/
def curIndent (line : PyStr) : Nat :=
  (line.takeWhile Char.isWhitespace).length

/-- The `SECTCRE` regex `\[(?P<header>[^]]+)\]` matched at the start of
the stripped line (trailing characters after `]` are ignored). -/
def sectMatch (v : PyStr) : Option PyStr :=
  match v with
  | c :: rest =>
    if c = '[' then
      let header := rest.takeWhile (fun x => x ≠ ']')
      if header = [] then none
      else
        match rest.dropWhile (fun x => x ≠ ']') with
        | _ :: _ => some header
        | [] => none
    else none
  | [] => none

/-- The position of the first delimiter character (`=` or `:`). -/
def findDelim : PyStr → Option Nat
  | [] => none
  | c :: r =>
    if c = '=' ∨ c = ':' then some 0
    else (findDelim r).map (· + 1)

/-- The `OPTCRE` regex `(?P<option>.*?)\s*(?P<vi>=|:)\s*(?P<value>.*)$`
on the stripped line: split at the first delimiter; the option keeps no
trailing whitespace, the value is stripped (`optval.strip()`). -/
def optMatch (v : PyStr) : Option (PyStr × PyStr) :=
  (findDelim v).map (fun i => (pyRStrip (v.take i), pyStrip (v.drop (i + 1))))

/-- Python `optname` truthiness: set and non-empty. -/
def optTruthy (o : Option PyStr) : Bool :=
  match o with
  | some x => x ≠ []
  | none => false

/-- `cursect[optname].append(x)`: append a part to the named option's
part list (first occurrence; no-op when absent, which `_read` never
reaches from a fresh state). -/
def partsAppend (P : AList (List PyStr)) (k x : PyStr) : AList (List PyStr) :=
  match P with
  | [] => []
  | q :: r => if q.1 = k then (q.1, q.2 ++ [x]) :: r else q :: partsAppend r k x

/-- Append a part `x` to the current option of the current section
(used for blank lines inside values and for continuation lines); the
guards mirror `cursect is not None and optname and ...`. -/
def appendCont (st : RState) (x : PyStr) : RState :=
  match st.sectname, st.optname with
  | some s, some o =>
    if o = [] then st
    else if s = defaultSection then { st with defaults := partsAppend st.defaults o x }
    else
      match odLookup st.sections s with
      | some e => { st with sections := odSet st.sections s (partsAppend e o x) }
      | none => st
  | _, _ => st

/-- `cursect[optname] = [optval]`: start a fresh part list for an option
in the current section. -/
def setCurrentOpt (st : RState) (o optval : PyStr) : RState :=
  match st.sectname with
  | some s =>
    if s = defaultSection then { st with defaults := odSet st.defaults o [optval] }
    else
      match odLookup st.sections s with
      | some e => { st with sections := odSet st.sections s (odSet e o [optval]) }
      | none => st
  | none => st

/-- One iteration of the `_read` loop over a raw line.  Comment lines are
skipped; blank lines append an empty part to the current option; a more
indented line continues the current option; otherwise the line is a
section header (`DuplicateSectionError` under `strict` when repeated;
the reserved name selects the defaults), or an option line
(`DuplicateOptionError` when repeated; an empty option name or an
unparsable line records a deferred `ParsingError`), or, with no current
section, `MissingSectionHeaderError`. -/
def processLine (st : RState) (line : PyStr) : Except PyExc RState :=
  let stripped := pyStrip line
  if isCommentLine stripped then .ok st
  else if stripped = [] then .ok (appendCont st [])
  else
    let ci := curIndent line
    if st.sectname.isSome ∧ optTruthy st.optname ∧ ci > st.indent then
      .ok (appendCont st stripped)
    else
      let st := { st with indent := ci }
      match sectMatch stripped with
      | some header =>
        if (odLookup st.sections header).isSome then
          if header ∈ st.seenSects then .error .dupSection
          else .ok { st with seenSects := st.seenSects ++ [header],
                             sectname := some header, optname := none }
        else if header = defaultSection then
          .ok { st with sectname := some header, optname := none }
        else
          .ok { st with sections := st.sections ++ [(header, [])],
                        seenSects := st.seenSects ++ [header],
                        sectname := some header, optname := none }
      | none =>
        match st.sectname with
        | none => .error .missingHeader
        | some sname =>
          match optMatch stripped with
          | some (optRaw, optval) =>
            let o := pyLower (pyRStrip optRaw)
            let st := if optRaw = [] then { st with hadErr := true } else st
            if (sname, o) ∈ st.seenOpts then .error .dupOption
            else
              .ok { (setCurrentOpt st o optval) with
                      seenOpts := st.seenOpts ++ [(sname, o)],
                      optname := some o }
          | none => .ok { st with hadErr := true }

/-- The `_read` loop over all lines, stopping at the first raised error. -/
def runLines (st : RState) : List PyStr → Except PyExc RState
  | [] => .ok st
  | l :: ls =>
    match processLine st l with
    | .ok st' => runLines st' ls
    | .error e => .error e

/-- `'\n'.join(parts)`. -/
def intercalateNl : List PyStr → PyStr
  | [] => []
  | [p] => p
  | p :: ps => p ++ '\n' :: intercalateNl ps

/-- `_join_multiline_values` on one option: join the parts with newlines
and strip trailing whitespace. -/
def joinParts (ps : List PyStr) : PyStr := pyRStrip (intercalateNl ps)

/-- Join every option of a parsed section. -/
def finSection (P : AList (List PyStr)) : Entries :=
  P.map (fun q => (q.1, joinParts q.2))

/-- End of `_read`: join all multiline values, then raise the deferred
`ParsingError` if any line failed to parse. -/
def finalizeState (st : RState) : Except PyExc ConfigStore :=
  if st.hadErr then .error .parsingErr
  else .ok { defaults := finSection st.defaults,
             sections := st.sections.map (fun se => (se.1, finSection se.2)) }

/-- `ConfigParser.read` on existing file contents: run `_read` from a
fresh state over the lines and finalize. -/
def parseFile (content : PyStr) : Except PyExc ConfigStore :=
  match runLines initRState (splitLines content) with
  | .ok st => finalizeState st
  | .error e => .error e

/-- `ConfigManager._load_config` (and thus the constructor): a missing
file yields an empty store (`config.read` skips unreadable files); any
parse exception is caught and the store reset to a fresh empty parser. -/
def loadConfig : Option PyStr → ConfigStore
  | none => emptyStore
  | some text =>
    match parseFile text with
    | .ok st => st
    | .error _ => emptyStore

/-! ### `ConfigManager.save_config` -/

/-- The outcome of the I/O attempted by `save_config` (directory
creation and file writing), supplied by the environment. -/
inductive SaveOutcome
  | success
  | makedirsError
  | writeError
deriving DecidableEq

/-- The `try` body of `save_config`: serialize and write the store,
unless the environment makes `os.makedirs` or `open`/`write` raise. -/
def saveAttempt (st : ConfigStore) : SaveOutcome → Except PyExc PyStr
  | .success => .ok (writeConfig st)
  | .makedirsError => .error .osError
  | .writeError => .error .osError

/-- `ConfigManager.save_config`: any exception is caught and only
printed, so the method always returns `None`; the in-memory store is
never touched.  The result is the Python return value, the store after
the call, and the file contents written (`none` when nothing was
written). -/
def save_config (st : ConfigStore) (o : SaveOutcome) :
    Except PyExc Unit × ConfigStore × Option PyStr :=
  match saveAttempt st o with
  | .ok content => (.ok (), st, some content)
  | .error _ => (.ok (), st, none)

/-! ### Auxiliary definitions for the statements and proofs -/

/-- Abbreviation for string literals as Python strings. -/
def pys (s : String) : PyStr := s.toList

/-- The section-creation half of `add_key` in isolation. -/
def ensureSection (st : ConfigStore) (s : PyStr) : ConfigStore :=
  if has_section st s then st else { st with sections := st.sections ++ [(s, [])] }

/-- A section name that the INI writer/reader round-trips literally:
non-empty, not the reserved name, and free of `]` and newlines. -/
def goodSectName (s : PyStr) : Prop :=
  s ≠ [] ∧ s ≠ defaultSection ∧ ']' ∉ s ∧ '\n' ∉ s

/-- A key that the writer/reader round-trips literally: non-empty,
already lowercase with no trailing whitespace (as `optionxform` leaves
it), free of newlines and delimiter characters, and not starting with
whitespace, `[`, or a comment prefix. -/
def goodKey (k : PyStr) : Prop :=
  k ≠ [] ∧ pyRStrip k = k ∧ pyLower k = k ∧
  (∀ c ∈ k, c ≠ '\n' ∧ c ≠ '=' ∧ c ≠ ':') ∧
  (∀ c ∈ k.take 1, ¬ c.isWhitespace ∧ c ≠ '[' ∧ c ≠ '#' ∧ c ≠ ';')

/-- A value that the reader's stripping and multiline joining leave
unchanged: no surrounding whitespace and no newlines. -/
def goodValue (v : PyStr) : Prop := pyStrip v = v ∧ '\n' ∉ v

/-- Stores whose serialized form parses back to exactly the same store:
empty defaults, distinct well-behaved section names, and per section
distinct well-behaved keys with well-behaved values. -/
def WFStore (st : ConfigStore) : Prop :=
  st.defaults = [] ∧ (st.sections.map Prod.fst).Nodup ∧
  ∀ se ∈ st.sections, goodSectName se.1 ∧ (se.2.map Prod.fst).Nodup ∧
    ∀ kv ∈ se.2, goodKey kv.1 ∧ goodValue kv.2

instance (s : PyStr) : Decidable (goodSectName s) := by unfold goodSectName; infer_instance

instance (k : PyStr) : Decidable (goodKey k) := by unfold goodKey; infer_instance

instance (v : PyStr) : Decidable (goodValue v) := by unfold goodValue; infer_instance

instance (st : ConfigStore) : Decidable (WFStore st) := by unfold WFStore; infer_instance

/-- The part lists `_read` holds for one serialized section just after
its trailing blank line: every value is a singleton part except the last,
which has picked up one empty part from the blank line. -/
def partsOf : Entries → AList (List PyStr)
  | [] => []
  | [(k, v)] => [(k, [v, []])]
  | kv :: es => (kv.1, [kv.2]) :: partsOf es

/-- The store that `add_key('S', 'k', ' v ')` builds (the key is
lowercased by `optionxform`; the value is stored verbatim). -/
def c1bad : ConfigStore := ⟨[], [(pys "S", [(pys "k", pys " v ")])]⟩

/-- A well-formed store used to witness the amended round-trip claim. -/
def c1demo : ConfigStore :=
  ⟨[], [(pys "Database", [(pys "host", pys "localhost"), (pys "port", pys "5432")])]⟩

/-- The store that `add_key('S', 'Key', 'v')` builds: `optionxform`
lowercases the key to `key`. -/
def c4store : ConfigStore := ⟨[], [(pys "S", [(pys "key", pys "v")])]⟩

/-- The store that `add_key('S', 'k', '%(nope)s')` builds: the reference
is syntactically valid, so `before_set` accepts it and the raw text is
stored. -/
def c5bad : ConfigStore := ⟨[], [(pys "S", [(pys "k", pys "%(nope)s")])]⟩

/-- The store produced by a successful `add_key` when the section's prior
entries (after section creation) are `e`. -/
def afterAdd (st : ConfigStore) (e : Entries) (s k v : PyStr) : ConfigStore :=
  { st with sections := odSet (ensureSection st s).sections s (odSet e (pyLower k) v) }

/-! ### Lemmas about ordered mappings -/

lemma odLookup_odSet_self {β : Type} (e : AList β) (k : PyStr) (v : β) :
    odLookup (odSet e k v) k = some v := by
  induction e with
  | nil => simp [odSet, odLookup]
  | cons q r ih =>
    obtain ⟨k', v'⟩ := q
    by_cases h : k' = k <;> simp [odSet, odLookup, h, ih]

lemma odLookup_odSet_ne {β : Type} (e : AList β) {k k' : PyStr} (v : β) (h : k ≠ k') :
    odLookup (odSet e k v) k' = odLookup e k' := by
  induction e with
  | nil => simp [odSet, odLookup, h]
  | cons q r ih =>
    obtain ⟨k0, v0⟩ := q
    by_cases h0 : k0 = k
    · subst h0
      simp [odSet, odLookup, h]
    · simp [odSet, odLookup, h0, ih]

lemma odLookup_append {β : Type} (a b : AList β) (k : PyStr)
    (h : odLookup a k = none) : odLookup (a ++ b) k = odLookup b k := by
  induction a with
  | nil => simp
  | cons q r ih =>
    obtain ⟨k0, v0⟩ := q
    by_cases h0 : k0 = k
    · simp [odLookup, h0] at h
    · simp only [odLookup, h0, if_false, List.cons_append] at h ⊢
      exact ih h

lemma odLookup_eq_none_iff {β : Type} [Nonempty β] (e : AList β) (k : PyStr) :
    odLookup e k = none ↔ k ∉ e.map Prod.fst := by
  induction e with
  | nil => simp [odLookup]
  | cons q r ih =>
    obtain ⟨k0, v0⟩ := q
    by_cases h0 : k0 = k
    · subst h0
      simp [odLookup]
    · have h0' : ¬ k = k0 := fun h => h0 h.symm
      simp [odLookup, h0, h0', ih]

lemma keys_odSet {β : Type} [Nonempty β] (e : AList β) (k : PyStr) (v : β) :
    (odSet e k v).map Prod.fst =
      if k ∈ e.map Prod.fst then e.map Prod.fst else e.map Prod.fst ++ [k] := by
  induction e with
  | nil => simp [odSet]
  | cons q r ih =>
    obtain ⟨k0, v0⟩ := q
    by_cases h0 : k0 = k
    · subst h0
      simp [odSet]
    · have h0' : ¬ k = k0 := fun h => h0 h.symm
      by_cases hm : k ∈ r.map Prod.fst <;>
        simp [odSet, h0, ih, hm, h0']

lemma keys_odUpdate (d : Entries) (e : Entries) :
    (odUpdate d e).map Prod.fst =
      (e.map Prod.fst).foldl
        (fun acc k => if k ∈ acc then acc else acc ++ [k]) (d.map Prod.fst) := by
  induction e generalizing d with
  | nil => simp [odUpdate]
  | cons kv r ih =>
    have step : odUpdate d (kv :: r) = odUpdate (odSet d kv.1 kv.2) r := by
      simp [odUpdate]
    rw [step, ih]
    simp [keys_odSet]

/-! ### Lemmas about interpolation -/

lemma interpLoop_no_pct (st : ConfigStore) (vars : Entries)
    (ex : PyStr → Except PyExc PyStr) :
    ∀ (v : PyStr) (cf : Nat), '%' ∉ v → v.length ≤ cf →
      interpLoop st vars ex cf v = .ok v := by
  intro v
  induction v with
  | nil => intro cf _ _; cases cf <;> rfl
  | cons c r ih =>
    intro cf h hlen
    cases cf with
    | zero => simp at hlen
    | succ cf =>
      have hc : ¬ c = '%' := fun hh => h (by simp [hh])
      have hr : '%' ∉ r := fun hm => h (List.mem_cons_of_mem _ hm)
      have hlen' : r.length ≤ cf := by
        simp only [List.length_cons] at hlen
        omega
      simp only [interpLoop, hc, if_false, ih cf hr hlen']

lemma interpGet_no_pct (st : ConfigStore) (vars : Entries) (fuel : Nat)
    (v : PyStr) (h : '%' ∉ v) : interpGet st vars (fuel + 1) v = .ok v :=
  interpLoop_no_pct st vars _ v v.length h le_rfl

lemma removeEsc_no_pct : ∀ (v : PyStr), '%' ∉ v → removeEsc v = v
  | [], _ => rfl
  | [_], _ => rfl
  | c :: c2 :: r, h => by
    have hc : ¬ (c = '%' ∧ c2 = '%') := by
      rintro ⟨h1, _⟩
      exact h (by simp [h1])
    have hr : '%' ∉ c2 :: r := fun hm => h (List.mem_cons_of_mem _ hm)
    rw [removeEsc]
    simp only [hc, if_false]
    rw [removeEsc_no_pct (c2 :: r) hr]

lemma keycreGo_no_pct : ∀ (v : PyStr) (cf : Nat), '%' ∉ v → v.length ≤ cf →
    keycreGo cf v = v
  | [], cf, _, _ => by cases cf <;> rfl
  | [c], cf, _, hlen => by
    cases cf with
    | zero => simp at hlen
    | succ cf => rfl
  | c :: c2 :: r, cf, h, hlen => by
    cases cf with
    | zero => simp at hlen
    | succ cf =>
      have hc : ¬ (c = '%' ∧ c2 = '(') := by
        rintro ⟨h1, _⟩
        exact h (by simp [h1])
      have hr : '%' ∉ c2 :: r := fun hm => h (List.mem_cons_of_mem _ hm)
      have hlen' : (c2 :: r).length ≤ cf := by
        simp only [List.length_cons] at hlen ⊢
        omega
      rw [keycreGo]
      simp only [hc, if_false]
      rw [keycreGo_no_pct (c2 :: r) cf hr hlen']

lemma keycreSub_no_pct (v : PyStr) (h : '%' ∉ v) : keycreSub v = v :=
  keycreGo_no_pct v v.length h le_rfl

lemma beforeSetOk_no_pct (v : PyStr) (h : '%' ∉ v) : beforeSetOk v := by
  unfold beforeSetOk
  rw [removeEsc_no_pct v h, keycreSub_no_pct v h]
  exact h

/-! ### The success path of `add_key` and the lookup after it -/

lemma add_key_ok (st : ConfigStore) (s k v : PyStr)
    (hs1 : s ≠ []) (hs2 : s ≠ defaultSection) (hv : beforeSetOk v) :
    ∃ e, odLookup (ensureSection st s).sections s = some e ∧
      add_key st s k v = .ok (afterAdd st e s k v) := by
  have hok : ¬ (v ≠ [] ∧ ¬ beforeSetOk v) := by
    rintro ⟨_, hno⟩; exact hno hv
  have hor : ¬ (s = [] ∨ s = defaultSection) := by
    rintro (h | h)
    · exact hs1 h
    · exact hs2 h
  cases hs : has_section st s with
  | true =>
    have hs' : (odLookup st.sections s).isSome = true := hs
    obtain ⟨e, he⟩ := Option.isSome_iff_exists.mp hs'
    refine ⟨e, ?_, ?_⟩
    · simp [ensureSection, hs, he]
    · simp only [add_key, hs, if_true]
      simp [config_set, hok, hor, afterAdd, ensureSection, hs, he]
  | false =>
    have hnone : odLookup st.sections s = none := by
      have hs' : (odLookup st.sections s).isSome = false := hs
      cases hl : odLookup st.sections s
      · rfl
      · rw [hl] at hs'; simp at hs'
    refine ⟨[], ?_, ?_⟩
    · simp [ensureSection, hs, odLookup_append _ _ _ hnone, odLookup]
    · simp only [add_key, hs, Bool.false_eq_true, if_false]
      have hadd : add_section st s =
          .ok { st with sections := st.sections ++ [(s, [])] } := by
        simp [add_section, hs2, hnone]
      rw [hadd]
      have hlook : odLookup (st.sections ++ [(s, [])]) s = some [] := by
        simp [odLookup_append _ _ _ hnone, odLookup]
      simp [config_set, hok, hor, hlook, afterAdd, ensureSection, hs]

lemma get_key_set {α : Type} (st : ConfigStore) (e : Entries)
    (s k k' v : PyStr) (d : α) (hv : '%' ∉ v) (hk : pyLower k' = pyLower k) :
    get_key (afterAdd st e s k v) s k' d = .inl v := by
  unfold get_key config_get unify_values afterAdd
  simp only [odLookup_odSet_self]
  unfold chainLookup
  rw [hk]
  simp only [odLookup_odSet_self]
  have h10 : (10 : Nat) = 9 + 1 := rfl
  rw [h10, interpGet_no_pct _ _ 9 v hv]

lemma odLookup_append_single_ne {β : Type} (a : AList β) (s s' : PyStr) (x : β)
    (h : s ≠ s') : odLookup (a ++ [(s, x)]) s' = odLookup a s' := by
  induction a with
  | nil => simp [odLookup, h]
  | cons q r ih =>
    obtain ⟨k0, v0⟩ := q
    by_cases h0 : k0 = s' <;> simp [odLookup, h0, ih]

lemma ensureSection_of_has (st : ConfigStore) (s : PyStr)
    (h : has_section st s = true) : ensureSection st s = st := by
  simp [ensureSection, h]

lemma ensureSection_lookup_ne (st : ConfigStore) (s s' : PyStr) (h : s ≠ s') :
    odLookup (ensureSection st s).sections s' = odLookup st.sections s' := by
  unfold ensureSection
  by_cases hs : has_section st s
  · simp [hs]
  · simp only [hs, Bool.false_eq_true, if_false]
    exact odLookup_append_single_ne _ _ _ _ h

lemma get_key_absent {α : Type} (st : ConfigStore) (s k : PyStr) (d : α)
    (hnone : odLookup st.sections s = none) (hs : s ≠ defaultSection) :
    get_key st s k d = .inr d := by
  unfold get_key config_get unify_values
  simp [hnone, hs]

lemma afterAdd_defaults (st : ConfigStore) (e : Entries) (s k v : PyStr) :
    (afterAdd st e s k v).defaults = st.defaults := rfl

lemma afterAdd_lookup_self (st : ConfigStore) (e : Entries) (s k v : PyStr) :
    odLookup (afterAdd st e s k v).sections s = some (odSet e (pyLower k) v) := by
  unfold afterAdd
  exact odLookup_odSet_self _ _ _

lemma afterAdd_lookup_ne (st : ConfigStore) (e : Entries) (s k v s' : PyStr)
    (h : s ≠ s') :
    odLookup (afterAdd st e s k v).sections s' = odLookup st.sections s' := by
  unfold afterAdd
  simp only [odLookup_odSet_ne _ _ h]
  exact ensureSection_lookup_ne st s s' h

lemma mem_keys_odSet_self {β : Type} [Nonempty β] (e : AList β) (k : PyStr) (v : β) :
    k ∈ (odSet e k v).map Prod.fst := by
  rw [keys_odSet]
  by_cases h : k ∈ e.map Prod.fst <;> simp [h]

/-! ### String lemmas for the round-trip proof -/

lemma pyLStrip_cons_not_ws (c : Char) (l : PyStr) (h : ¬ c.isWhitespace) :
    pyLStrip (c :: l) = c :: l := by
  simp [pyLStrip, List.dropWhile_cons, h]

lemma pyRStrip_append_not_ws (l : PyStr) (c : Char) (h : ¬ c.isWhitespace) :
    pyRStrip (l ++ [c]) = l ++ [c] := by
  simp [pyRStrip, List.dropWhile_cons, h]

lemma pyRStrip_append_ws (l : PyStr) (c : Char) (h : c.isWhitespace) :
    pyRStrip (l ++ [c]) = pyRStrip l := by
  simp [pyRStrip, List.dropWhile_cons, h]

lemma pyRStrip_length_le (l : PyStr) : (pyRStrip l).length ≤ l.length := by
  unfold pyRStrip
  calc (l.reverse.dropWhile Char.isWhitespace).reverse.length
      = (l.reverse.dropWhile Char.isWhitespace).length := by simp
    _ ≤ l.reverse.length := (List.dropWhile_suffix _).length_le
    _ = l.length := by simp

lemma pyStrip_parts (v : PyStr) (h : pyStrip v = v) :
    pyLStrip v = v ∧ pyRStrip v = v := by
  have hsuf : pyLStrip v <:+ v := List.dropWhile_suffix _
  have h1 : (pyStrip v).length ≤ (pyLStrip v).length := pyRStrip_length_le _
  have h2 : (pyLStrip v).length ≤ v.length := hsuf.length_le
  have hlen : (pyLStrip v).length = v.length := by
    rw [h] at h1
    omega
  have hl : pyLStrip v = v := hsuf.eq_of_length hlen
  refine ⟨hl, ?_⟩
  have : pyStrip v = pyRStrip v := by rw [pyStrip, hl]
  rw [← this, h]

lemma exists_concat_of_ne_nil (v : PyStr) (h : v ≠ []) :
    ∃ l c, v = l ++ [c] := by
  rcases List.eq_nil_or_concat v with h0 | ⟨l, c, h0⟩
  · exact absurd h0 h
  · exact ⟨l, c, h0.trans (List.concat_eq_append _ _)⟩

lemma last_not_ws_of_rstrip_self (v : PyStr) (h : pyRStrip v = v) (hne : v ≠ []) :
    ∃ l c, v = l ++ [c] ∧ ¬ c.isWhitespace := by
  obtain ⟨l, c, rfl⟩ := exists_concat_of_ne_nil v hne
  refine ⟨l, c, rfl, ?_⟩
  intro hws
  have hr := pyRStrip_append_ws l c hws
  rw [h] at hr
  have := pyRStrip_length_le l
  rw [← hr] at this
  simp at this

lemma pyStrip_cons_concat (c0 : Char) (mid : PyStr) (c1 : Char)
    (h0 : ¬ c0.isWhitespace) (h1 : ¬ c1.isWhitespace) :
    pyStrip (c0 :: (mid ++ [c1])) = c0 :: (mid ++ [c1]) := by
  unfold pyStrip
  rw [pyLStrip_cons_not_ws _ _ h0]
  have : c0 :: (mid ++ [c1]) = (c0 :: mid) ++ [c1] := rfl
  rw [this, pyRStrip_append_not_ws _ _ h1]

lemma takeWhile_all_append (s : PyStr) (x : Char) (p : Char → Bool)
    (hs : ∀ c ∈ s, p c = true) (hx : p x = false) :
    (s ++ [x]).takeWhile p = s ∧ (s ++ [x]).dropWhile p = [x] := by
  induction s with
  | nil => simp [List.takeWhile_cons, List.dropWhile_cons, hx]
  | cons c t ih =>
    have hc := hs c (List.mem_cons_self c t)
    have ht : ∀ c0 ∈ t, p c0 = true := fun c0 hm => hs c0 (List.mem_cons_of_mem _ hm)
    obtain ⟨ih1, ih2⟩ := ih ht
    simp [List.takeWhile_cons, List.dropWhile_cons, hc, ih1, ih2]

lemma findDelim_k_append (k : PyStr) (hk : ∀ c ∈ k, ¬ c = '=' ∧ ¬ c = ':')
    (rest : PyStr) :
    findDelim (k ++ ' ' :: '=' :: rest) = some (k.length + 1) := by
  induction k with
  | nil => simp [findDelim]
  | cons c t ih =>
    obtain ⟨h1, h2⟩ := hk c (List.mem_cons_self c t)
    have ht : ∀ c0 ∈ t, ¬ c0 = '=' ∧ ¬ c0 = ':' :=
      fun c0 hm => hk c0 (List.mem_cons_of_mem _ hm)
    have : ¬ (c = '=' ∨ c = ':') := by
      rintro (h | h)
      · exact h1 h
      · exact h2 h
    simp [findDelim, this, ih ht]

lemma sectMatch_header (s : PyStr) (h1 : s ≠ []) (h2 : ']' ∉ s) :
    sectMatch ('[' :: (s ++ [']'])) = some s := by
  have hs : ∀ c ∈ s, (decide (c ≠ ']')) = true := by
    intro c hm
    simp only [decide_eq_true_eq]
    intro hc
    exact h2 (hc ▸ hm)
  obtain ⟨ht, hd⟩ := takeWhile_all_append s ']' (fun x => x ≠ ']') hs (by simp)
  simp only [sectMatch, if_pos rfl, ht, hd, h1, if_false]
  rfl

lemma sectMatch_not_bracket (c0 : Char) (t : PyStr) (h : ¬ c0 = '[') :
    sectMatch (c0 :: t) = none := by
  simp [sectMatch, h]

lemma curIndent_cons_not_ws (c : Char) (l : PyStr) (h : ¬ c.isWhitespace) :
    curIndent (c :: l) = 0 := by
  simp [curIndent, List.takeWhile_cons, h]

lemma strip_optLine_nil (k : PyStr) (hk : goodKey k) :
    pyStrip (k ++ [' ', '=', ' ']) = k ++ [' ', '='] := by
  obtain ⟨hk0, hkr, _, _, hkh⟩ := hk
  obtain ⟨c0, kt, rfl⟩ : ∃ c0 kt, k = c0 :: kt := by
    cases k with
    | nil => exact absurd rfl hk0
    | cons a b => exact ⟨a, b, rfl⟩
  have hh := hkh c0 (by simp)
  unfold pyStrip
  rw [show (c0 :: kt) ++ [' ', '=', ' '] = c0 :: (kt ++ [' ', '=', ' ']) from by simp]
  rw [pyLStrip_cons_not_ws _ _ hh.1]
  rw [show c0 :: (kt ++ [' ', '=', ' ']) = (c0 :: (kt ++ [' ', '='])) ++ [' '] from by simp]
  rw [pyRStrip_append_ws _ _ (by decide)]
  rw [show c0 :: (kt ++ [' ', '=']) = (c0 :: (kt ++ [' '])) ++ ['='] from by simp]
  rw [pyRStrip_append_not_ws _ _ (by decide)]
  simp

lemma strip_optLine_pos (k v : PyStr) (hk : goodKey k) (hv : goodValue v)
    (hve : v ≠ []) :
    pyStrip (k ++ ' ' :: '=' :: ' ' :: v) = k ++ ' ' :: '=' :: ' ' :: v := by
  obtain ⟨hk0, hkr, _, _, hkh⟩ := hk
  obtain ⟨c0, kt, rfl⟩ : ∃ c0 kt, k = c0 :: kt := by
    cases k with
    | nil => exact absurd rfl hk0
    | cons a b => exact ⟨a, b, rfl⟩
  have hh := hkh c0 (by simp)
  obtain ⟨vl, vc, hveq, hvc⟩ :=
    last_not_ws_of_rstrip_self v (pyStrip_parts v hv.1).2 hve
  rw [hveq]
  rw [show (c0 :: kt) ++ ' ' :: '=' :: ' ' :: (vl ++ [vc]) =
        c0 :: ((kt ++ ' ' :: '=' :: ' ' :: vl) ++ [vc]) from by simp]
  rw [pyStrip_cons_concat _ _ _ hh.1 hvc]

lemma optMatch_nil (k : PyStr) (hk : goodKey k) :
    optMatch (k ++ [' ', '=']) = some (k, []) := by
  obtain ⟨_, hkr, _, hkc, _⟩ := hk
  have hkd : ∀ c ∈ k, ¬ c = '=' ∧ ¬ c = ':' :=
    fun c hm => ⟨(hkc c hm).2.1, (hkc c hm).2.2⟩
  have hstrip : pyRStrip (k ++ [' ']) = k := by
    rw [pyRStrip_append_ws _ _ (by decide), hkr]
  unfold optMatch
  rw [show k ++ [' ', '='] = k ++ ' ' :: '=' :: ([] : PyStr) from rfl]
  rw [findDelim_k_append k hkd []]
  simp only [Option.map_some']
  rw [@List.take_append Char k [' ', '='] 1]
  rw [show k.length + 1 + 1 = k.length + 2 from rfl]
  rw [@List.drop_append Char k [' ', '='] 2]
  simp only [List.take, List.drop]
  rw [hstrip]
  rfl

lemma optMatch_pos (k v : PyStr) (hk : goodKey k) (hv : goodValue v) :
    optMatch (k ++ ' ' :: '=' :: ' ' :: v) = some (k, v) := by
  obtain ⟨_, hkr, _, hkc, _⟩ := hk
  have hkd : ∀ c ∈ k, ¬ c = '=' ∧ ¬ c = ':' :=
    fun c hm => ⟨(hkc c hm).2.1, (hkc c hm).2.2⟩
  have hstrip : pyRStrip (k ++ [' ']) = k := by
    rw [pyRStrip_append_ws _ _ (by decide), hkr]
  have hparts := pyStrip_parts v hv.1
  unfold optMatch
  rw [findDelim_k_append k hkd (' ' :: v)]
  simp only [Option.map_some']
  rw [show k ++ ' ' :: '=' :: ' ' :: v = k ++ ([' ', '=', ' '] ++ v) from by simp]
  rw [@List.take_append Char k ([' ', '=', ' '] ++ v) 1]
  rw [show k.length + 1 + 1 = k.length + 2 from rfl]
  rw [@List.drop_append Char k ([' ', '=', ' '] ++ v) 2]
  have hdrop : ([' ', '=', ' '] ++ v).drop 2 = ' ' :: v := by simp
  have htake : ([' ', '=', ' '] ++ v).take 1 = [' '] := by simp
  rw [hdrop, htake, hstrip]
  have hsv : pyStrip (' ' :: v) = v := by
    unfold pyStrip
    have hl : pyLStrip (' ' :: v) = pyLStrip v := by
      simp [pyLStrip, List.dropWhile_cons]
    rw [hl, hparts.1, hparts.2]
  rw [hsv]

lemma replaceNlTab_id (v : PyStr) (h : '\n' ∉ v) : replaceNlTab v = v := by
  induction v with
  | nil => rfl
  | cons c r ih =>
    have hc : ¬ c = '\n' := fun hh => h (by simp [hh])
    have hr : '\n' ∉ r := fun hm => h (List.mem_cons_of_mem _ hm)
    simp [replaceNlTab, hc, ih hr]
    simp [replaceNlTab] at ih
    exact ih hr

lemma processLine_blank (R : RState) : processLine R [] = .ok (appendCont R []) := rfl

lemma processLine_header (df : AList (List PyStr)) (sec : AList (AList (List PyStr)))
    (sn opt : Option PyStr) (ss : List PyStr) (so : List (PyStr × PyStr))
    (s : PyStr) (hs : goodSectName s)
    (hseen : s ∉ ss) (hlook : odLookup sec s = none) :
    processLine ⟨df, sec, sn, opt, 0, ss, so, false⟩ ('[' :: (s ++ [']'])) =
      .ok ⟨df, sec ++ [(s, [])], some s, none, 0, ss ++ [s], so, false⟩ := by
  obtain ⟨hs0, hsD, hsB, hsN⟩ := hs
  have hstrip : pyStrip ('[' :: (s ++ [']'])) = '[' :: (s ++ [']']) :=
    pyStrip_cons_concat '[' s ']' (by decide) (by decide)
  have hci : curIndent ('[' :: (s ++ [']'])) = 0 :=
    curIndent_cons_not_ws _ _ (by decide)
  have hmatch := sectMatch_header s hs0 hsB
  simp only [processLine, hstrip, hci, hmatch, isCommentLine, optTruthy]
  simp [hlook, hseen, hsD]

lemma processLine_optLine (df : AList (List PyStr)) (sec : AList (AList (List PyStr)))
    (opt : Option PyStr) (ss : List PyStr) (so : List (PyStr × PyStr))
    (s : PyStr) (acc : AList (List PyStr)) (k v : PyStr)
    (hk : goodKey k) (hv : goodValue v)
    (hsD : s ≠ defaultSection)
    (hlook : odLookup sec s = some acc)
    (hdup : (s, k) ∉ so) :
    processLine ⟨df, sec, some s, opt, 0, ss, so, false⟩ (k ++ ' ' :: '=' :: ' ' :: v) =
      .ok ⟨df, odSet sec s (odSet acc k [v]), some s, some k, 0, ss, so ++ [(s, k)], false⟩ := by
  have hk' := hk
  obtain ⟨hk0, hkr, hkl, hkc, hkh⟩ := hk'
  obtain ⟨c0, kt, hkeq⟩ : ∃ c0 kt, k = c0 :: kt := by
    cases k with
    | nil => exact absurd rfl hk0
    | cons a b => exact ⟨a, b, rfl⟩
  have hh := hkh c0 (by rw [hkeq]; simp)
  have hheadne : ∀ t : PyStr, k ++ t = c0 :: (kt ++ t) := by
    intro t; rw [hkeq]; rfl
  by_cases hve : v = []
  · subst hve
    have hstrip : pyStrip (k ++ ' ' :: '=' :: ' ' :: ([] : PyStr)) = k ++ [' ', '='] :=
      strip_optLine_nil k hk
    have hmatch : optMatch (k ++ [' ', '=']) = some (k, []) := optMatch_nil k hk
    have hci : curIndent (k ++ ' ' :: '=' :: ' ' :: ([] : PyStr)) = 0 := by
      rw [hheadne]
      exact curIndent_cons_not_ws _ _ hh.1
    have hcomment : isCommentLine (k ++ [' ', '=']) = false := by
      rw [hheadne]
      simp [isCommentLine, hh.2.2.1, hh.2.2.2]
    have hsect : sectMatch (k ++ [' ', '=']) = none := by
      rw [hheadne]
      exact sectMatch_not_bracket _ _ hh.2.1
    have hne : ¬ (k ++ [' ', '='] = []) := by
      rw [hheadne]; simp
    simp only [processLine, hstrip, hmatch, hci, hcomment, hsect, hne, optTruthy]
    simp only [if_false, Bool.false_eq_true]
    simp [hk0, setCurrentOpt, hsD, hlook]
    rw [hkr, hkl, if_neg hdup]
  · have hstrip : pyStrip (k ++ ' ' :: '=' :: ' ' :: v) = k ++ ' ' :: '=' :: ' ' :: v :=
      strip_optLine_pos k v hk hv hve
    have hmatch : optMatch (k ++ ' ' :: '=' :: ' ' :: v) = some (k, v) :=
      optMatch_pos k v hk hv
    have hci : curIndent (k ++ ' ' :: '=' :: ' ' :: v) = 0 := by
      rw [hheadne]
      exact curIndent_cons_not_ws _ _ hh.1
    have hcomment : isCommentLine (k ++ ' ' :: '=' :: ' ' :: v) = false := by
      rw [hheadne]
      simp [isCommentLine, hh.2.2.1, hh.2.2.2]
    have hsect : sectMatch (k ++ ' ' :: '=' :: ' ' :: v) = none := by
      rw [hheadne]
      exact sectMatch_not_bracket _ _ hh.2.1
    have hne : ¬ (k ++ ' ' :: '=' :: ' ' :: v = []) := by
      rw [hheadne]; simp
    simp only [processLine, hstrip, hmatch, hci, hcomment, hsect, hne, optTruthy]
    simp only [if_false, Bool.false_eq_true]
    simp [hk0, setCurrentOpt, hsD, hlook]
    rw [hkr, hkl, if_neg hdup]

lemma runLines_append (a : List PyStr) :
    ∀ (R : RState) (b : List PyStr),
      runLines R (a ++ b) =
        match runLines R a with
        | .ok R' => runLines R' b
        | .error e => .error e := by
  induction a with
  | nil => intro R b; simp [runLines]
  | cons l ls ih =>
    intro R b
    simp only [List.cons_append, runLines]
    cases processLine R l with
    | ok R' => exact ih R' b
    | error e => rfl

lemma runLines_cons_ok {R R' : RState} (l : PyStr) (ls : List PyStr)
    (h : processLine R l = .ok R') : runLines R (l :: ls) = runLines R' ls := by
  simp [runLines, h]

lemma runLines_append_ok {R R' : RState} (a b : List PyStr)
    (h : runLines R a = .ok R') : runLines R (a ++ b) = runLines R' b := by
  rw [runLines_append, h]

lemma odSet_lookup_eq {β : Type} (e : AList β) (k : PyStr) (v : β)
    (h : odLookup e k = some v) : odSet e k v = e := by
  induction e with
  | nil => simp [odLookup] at h
  | cons q r ih =>
    obtain ⟨k0, v0⟩ := q
    by_cases h0 : k0 = k
    · subst h0
      have h2 : v0 = v := by simpa [odLookup] using h
      subst h2
      simp [odSet]
    · simp only [odLookup, h0, if_false] at h
      simp [odSet, h0, ih h]

lemma odSet_odSet_self {β : Type} (e : AList β) (k : PyStr) (x y : β) :
    odSet (odSet e k x) k y = odSet e k y := by
  induction e with
  | nil => simp [odSet]
  | cons q r ih =>
    obtain ⟨k0, v0⟩ := q
    by_cases h0 : k0 = k
    · subst h0; simp [odSet]
    · simp [odSet, h0, ih]

lemma odSet_not_mem_append {β : Type} (e : AList β) (k : PyStr) (v : β)
    (h : odLookup e k = none) : odSet e k v = e ++ [(k, v)] := by
  induction e with
  | nil => simp [odSet]
  | cons q r ih =>
    obtain ⟨k0, v0⟩ := q
    by_cases h0 : k0 = k
    · simp [odLookup, h0] at h
    · simp only [odLookup, h0, if_false] at h
      simp [odSet, h0, ih h]

lemma odSet_append_last {β : Type} (a : AList β) (s : PyStr) (x y : β)
    (h : odLookup a s = none) : odSet (a ++ [(s, x)]) s y = a ++ [(s, y)] := by
  induction a with
  | nil => simp [odSet]
  | cons q r ih =>
    obtain ⟨k0, v0⟩ := q
    by_cases h0 : k0 = s
    · simp [odLookup, h0] at h
    · simp only [odLookup, h0, if_false] at h
      simp [odSet, h0, ih h]

lemma run_optLines (df : AList (List PyStr)) (s : PyStr) (hsD : s ≠ defaultSection) :
    ∀ (es : Entries) (sec : AList (AList (List PyStr))) (opt : Option PyStr)
      (ss : List PyStr) (so : List (PyStr × PyStr)) (acc : AList (List PyStr)),
      odLookup sec s = some acc →
      (∀ kv ∈ es, goodKey kv.1 ∧ goodValue kv.2) →
      (es.map Prod.fst).Nodup →
      (∀ kv ∈ es, odLookup acc kv.1 = none) →
      (∀ kv ∈ es, (s, kv.1) ∉ so) →
      runLines ⟨df, sec, some s, opt, 0, ss, so, false⟩
          (es.map (fun kv => kv.1 ++ ' ' :: '=' :: ' ' :: kv.2)) =
        .ok ⟨df, odSet sec s (acc ++ es.map (fun kv => (kv.1, [kv.2]))), some s,
             (es.getLast?).elim opt (fun kv => some kv.1), 0, ss,
             so ++ es.map (fun kv => (s, kv.1)), false⟩ := by
  intro es
  induction es with
  | nil =>
    intro sec opt ss so acc hlook _ _ _ _
    simp only [List.map_nil, runLines, List.append_nil, List.getLast?_nil, Option.elim]
    rw [odSet_lookup_eq sec s acc hlook]
  | cons kv rest ih =>
    intro sec opt ss so acc hlook hgood hnodup hfresh hdups
    obtain ⟨hkgood, hvgood⟩ := hgood kv (List.mem_cons_self _ _)
    have hknotin : kv.1 ∉ rest.map Prod.fst := by
      simp only [List.map_cons, List.nodup_cons] at hnodup
      exact hnodup.1
    simp only [List.map_cons]
    rw [runLines_cons_ok _ _
      (processLine_optLine df sec opt ss so s acc kv.1 kv.2 hkgood hvgood hsD hlook
        (hdups kv (List.mem_cons_self _ _)))]
    rw [odSet_not_mem_append acc kv.1 [kv.2] (hfresh kv (List.mem_cons_self _ _))]
    have hlook2 : odLookup (odSet sec s (acc ++ [(kv.1, [kv.2])])) s =
        some (acc ++ [(kv.1, [kv.2])]) := odLookup_odSet_self _ _ _
    have hgood' : ∀ kv' ∈ rest, goodKey kv'.1 ∧ goodValue kv'.2 :=
      fun kv' hm => hgood kv' (List.mem_cons_of_mem _ hm)
    have hnodup' : (rest.map Prod.fst).Nodup := by
      simp only [List.map_cons, List.nodup_cons] at hnodup
      exact hnodup.2
    have hfresh' : ∀ kv' ∈ rest, odLookup (acc ++ [(kv.1, [kv.2])]) kv'.1 = none := by
      intro kv' hm
      rw [odLookup_append _ _ _ (hfresh kv' (List.mem_cons_of_mem _ hm))]
      have : ¬ kv.1 = kv'.1 := by
        intro he
        exact hknotin (he ▸ List.mem_map_of_mem Prod.fst hm)
      simp [odLookup, this]
    have hdups' : ∀ kv' ∈ rest, (s, kv'.1) ∉ so ++ [(s, kv.1)] := by
      intro kv' hm
      simp only [List.mem_append, List.mem_singleton]
      rintro (hin | heq)
      · exact hdups kv' (List.mem_cons_of_mem _ hm) hin
      · have : kv'.1 = kv.1 := by
          have := congrArg Prod.snd heq
          simpa using this
        exact hknotin (this ▸ List.mem_map_of_mem Prod.fst hm)
    have := ih (odSet sec s (acc ++ [(kv.1, [kv.2])])) (some kv.1) ss
      (so ++ [(s, kv.1)]) (acc ++ [(kv.1, [kv.2])]) hlook2 hgood' hnodup' hfresh' hdups'
    rw [this]
    rw [odSet_odSet_self]
    have happ : (acc ++ [(kv.1, [kv.2])]) ++ rest.map (fun kv => (kv.1, [kv.2])) =
        acc ++ (kv :: rest).map (fun kv => (kv.1, [kv.2])) := by
      simp
    have happ2 : (so ++ [(s, kv.1)]) ++ rest.map (fun kv => (s, kv.1)) =
        so ++ (kv :: rest).map (fun kv => (s, kv.1)) := by
      simp
    rw [happ, happ2]
    have hlast : (rest.getLast?).elim (some kv.1) (fun kv' => some kv'.1) =
        ((kv :: rest).getLast?).elim opt (fun kv' => some kv'.1) := by
      cases rest with
      | nil => rfl
      | cons r0 rs => rfl
    rw [hlast]
    simp

lemma partsAppend_mapped : ∀ (es : Entries) (kvl : PyStr × PyStr),
    es.getLast? = some kvl → (es.map Prod.fst).Nodup →
    partsAppend (es.map (fun kv => (kv.1, [kv.2]))) kvl.1 [] = partsOf es
  | [], _, h, _ => by simp at h
  | [kv0], kvl, h, _ => by
    have : kv0 = kvl := by
      simpa [List.getLast?] using h
    subst this
    simp [partsAppend, partsOf]
  | kv0 :: kv1 :: rest, kvl, h, hnodup => by
    have h' : (kv1 :: rest).getLast? = some kvl := h
    have hmem : kvl ∈ kv1 :: rest := List.mem_of_mem_getLast? h'
    have hnodup' : ((kv1 :: rest).map Prod.fst).Nodup := by
      simp only [List.map_cons, List.nodup_cons] at hnodup ⊢
      exact ⟨hnodup.2.1, hnodup.2.2⟩
    have hne : ¬ kv0.1 = kvl.1 := by
      intro he
      simp only [List.map_cons, List.nodup_cons] at hnodup
      exact hnodup.1 (he ▸ List.mem_map_of_mem Prod.fst hmem)
    have ihres := partsAppend_mapped (kv1 :: rest) kvl h' hnodup'
    simp only [List.map_cons] at ihres
    rw [List.map_cons, List.map_cons]
    rw [show partsOf (kv0 :: kv1 :: rest) = (kv0.1, [kv0.2]) :: partsOf (kv1 :: rest) from rfl]
    rw [partsAppend, if_neg hne, ← ihres]

lemma run_section (df : AList (List PyStr)) (s : PyStr) (es : Entries)
    (hs : goodSectName s)
    (hgood : ∀ kv ∈ es, goodKey kv.1 ∧ goodValue kv.2)
    (hnodup : (es.map Prod.fst).Nodup)
    (sec : AList (AList (List PyStr))) (sn opt : Option PyStr)
    (ss : List PyStr) (so : List (PyStr × PyStr))
    (hseen : s ∉ ss) (hlook : odLookup sec s = none)
    (hdups : ∀ kv ∈ es, (s, kv.1) ∉ so) :
    runLines ⟨df, sec, sn, opt, 0, ss, so, false⟩ (writeSectionLines s es) =
      .ok ⟨df, sec ++ [(s, partsOf es)], some s,
           (es.getLast?).elim none (fun kv => some kv.1), 0, ss ++ [s],
           so ++ es.map (fun kv => (s, kv.1)), false⟩ := by
  unfold writeSectionLines
  rw [runLines_cons_ok _ _ (processLine_header df sec sn opt ss so s hs hseen hlook)]
  have hmapline : es.map (fun kv => kv.1 ++ (' ' :: '=' :: ' ' :: replaceNlTab kv.2)) =
      es.map (fun kv => kv.1 ++ ' ' :: '=' :: ' ' :: kv.2) := by
    apply List.map_congr_left
    intro kv hm
    rw [replaceNlTab_id kv.2 (hgood kv hm).2.2]
  rw [hmapline]
  have hlookafter : odLookup (sec ++ [(s, [])]) s = some [] := by
    rw [odLookup_append _ _ _ hlook]
    simp [odLookup]
  have hfresh : ∀ kv ∈ es, odLookup ([] : AList (List PyStr)) kv.1 = none := by
    intro kv _
    rfl
  rw [runLines_append_ok _ _ (run_optLines df s hs.2.1 es (sec ++ [(s, [])]) none
    (ss ++ [s]) so [] hlookafter hgood hnodup hfresh hdups)]
  rw [odSet_append_last sec s _ _ hlook]
  simp only [List.nil_append]
  rw [runLines_cons_ok _ _ (processLine_blank _)]
  simp only [runLines]
  cases hlast : es.getLast? with
  | none =>
    have hes : es = [] := by
      cases es with
      | nil => rfl
      | cons a b => simp [List.getLast?_eq_getLast] at hlast
    subst hes
    simp [appendCont, Option.elim, partsOf]
  | some kvl =>
    have hmem : kvl ∈ es := List.mem_of_mem_getLast? hlast
    have hkgood := (hgood kvl hmem).1
    have hko : ¬ kvl.1 = [] := hkgood.1
    simp only [Option.elim]
    unfold appendCont
    simp only [hko, if_false, hs.2.1, List.nil_append]
    have hlookP : odLookup (sec ++ [(s, es.map (fun kv => (kv.1, [kv.2])))]) s =
        some (es.map (fun kv => (kv.1, [kv.2]))) := by
      rw [odLookup_append _ _ _ hlook]
      simp [odLookup]
    simp only [hlookP]
    rw [odSet_append_last sec s _ _ hlook]
    rw [partsAppend_mapped es kvl hlast hnodup]

lemma run_sections (df : AList (List PyStr)) :
    ∀ (secs : List (PyStr × Entries)) (sec : AList (AList (List PyStr)))
      (sn opt : Option PyStr) (so : List (PyStr × PyStr)),
      ((sec.map Prod.fst) ++ secs.map Prod.fst).Nodup →
      (∀ se ∈ secs, goodSectName se.1 ∧ (se.2.map Prod.fst).Nodup ∧
        ∀ kv ∈ se.2, goodKey kv.1 ∧ goodValue kv.2) →
      (∀ se ∈ secs, ∀ kv ∈ se.2, (se.1, kv.1) ∉ so) →
      runLines ⟨df, sec, sn, opt, 0, sec.map Prod.fst, so, false⟩
          (secs.flatMap (fun se => writeSectionLines se.1 se.2)) =
        .ok ⟨df, sec ++ secs.map (fun se => (se.1, partsOf se.2)),
             (secs.getLast?).elim sn (fun se => some se.1),
             (secs.getLast?).elim opt
               (fun se => (se.2.getLast?).elim none (fun kv => some kv.1)),
             0, (sec.map Prod.fst) ++ secs.map Prod.fst,
             so ++ secs.flatMap (fun se => se.2.map (fun kv => (se.1, kv.1))), false⟩ := by
  intro secs
  induction secs with
  | nil =>
    intro sec sn opt so _ _ _
    simp [runLines, Option.elim]
  | cons se rest ih =>
    intro sec sn opt so hnodup hgood hdups
    obtain ⟨hsgood, hesnodup, hesgood⟩ := hgood se (List.mem_cons_self _ _)
    obtain ⟨hnd1, hnd2, hdisj⟩ := List.nodup_append.mp hnodup
    have hseen : se.1 ∉ sec.map Prod.fst := by
      intro hm
      exact hdisj hm (by simp)
    have hlook : odLookup sec se.1 = none := (odLookup_eq_none_iff _ _).mpr hseen
    rw [List.flatMap_cons]
    rw [runLines_append_ok _ _
      (run_section df se.1 se.2 hsgood hesgood hesnodup sec sn opt (sec.map Prod.fst) so
        hseen hlook (hdups se (List.mem_cons_self _ _)))]
    have hkeys2 : (sec.map Prod.fst) ++ [se.1] =
        (sec ++ [(se.1, partsOf se.2)]).map Prod.fst := by
      simp
    rw [hkeys2]
    have hnodup' : (((sec ++ [(se.1, partsOf se.2)]).map Prod.fst) ++
        rest.map Prod.fst).Nodup := by
      simp only [List.map_append, List.map_cons, List.map_nil]
      rw [List.append_assoc]
      simp only [List.singleton_append]
      simpa using hnodup
    have hgood' : ∀ se' ∈ rest, goodSectName se'.1 ∧ (se'.2.map Prod.fst).Nodup ∧
        ∀ kv ∈ se'.2, goodKey kv.1 ∧ goodValue kv.2 :=
      fun se' hm => hgood se' (List.mem_cons_of_mem _ hm)
    have hrestkeys : se.1 ∉ rest.map Prod.fst := by
      simp only [List.map_cons, List.nodup_cons] at hnd2
      exact hnd2.1
    have hdups' : ∀ se' ∈ rest, ∀ kv ∈ se'.2,
        (se'.1, kv.1) ∉ so ++ se.2.map (fun kv => (se.1, kv.1)) := by
      intro se' hm kv hkv
      simp only [List.mem_append, List.mem_map]
      rintro (hin | ⟨kv0, _, heq⟩)
      · exact hdups se' (List.mem_cons_of_mem _ hm) kv hkv hin
      · have : se'.1 = se.1 := (congrArg Prod.fst heq).symm
        exact hrestkeys (this ▸ List.mem_map_of_mem Prod.fst hm)
    rw [ih (sec ++ [(se.1, partsOf se.2)]) (some se.1)
      ((se.2.getLast?).elim none (fun kv => some kv.1))
      (so ++ se.2.map (fun kv => (se.1, kv.1))) hnodup' hgood' hdups']
    have e1 : (sec ++ [(se.1, partsOf se.2)]) ++
        rest.map (fun se => (se.1, partsOf se.2)) =
        sec ++ (se :: rest).map (fun se => (se.1, partsOf se.2)) := by
      simp
    have e2 : ((sec ++ [(se.1, partsOf se.2)]).map Prod.fst) ++ rest.map Prod.fst =
        (sec.map Prod.fst) ++ (se :: rest).map Prod.fst := by
      simp
    have e3 : (so ++ se.2.map (fun kv => (se.1, kv.1))) ++
        rest.flatMap (fun se => se.2.map (fun kv => (se.1, kv.1))) =
        so ++ (se :: rest).flatMap (fun se => se.2.map (fun kv => (se.1, kv.1))) := by
      simp
    rw [e1, e2, e3]
    have e4 : ((rest.getLast?).elim (some se.1) (fun se' => some se'.1)) =
        (((se :: rest).getLast?).elim sn (fun se' => some se'.1)) := by
      cases rest with
      | nil => rfl
      | cons r0 rs => rfl
    have e5 : ((rest.getLast?).elim ((se.2.getLast?).elim none (fun kv => some kv.1))
          (fun se' => (se'.2.getLast?).elim none (fun kv => some kv.1))) =
        (((se :: rest).getLast?).elim opt
          (fun se' => (se'.2.getLast?).elim none (fun kv => some kv.1))) := by
      cases rest with
      | nil => rfl
      | cons r0 rs => rfl
    rw [e4, e5]

lemma splitLines_no_nl (l : PyStr) (h : '\n' ∉ l) (r : PyStr) :
    splitLines (l ++ '\n' :: r) = l :: splitLines r := by
  induction l with
  | nil => simp [splitLines]
  | cons c t ih =>
    have hc : ¬ c = '\n' := fun hh => h (by simp [hh])
    have ht : '\n' ∉ t := fun hm => h (List.mem_cons_of_mem _ hm)
    simp only [List.cons_append, splitLines, hc, if_false, List.append_eq]
    rw [ih ht]

lemma splitLines_flat (ls : List PyStr) (h : ∀ l ∈ ls, '\n' ∉ l) :
    splitLines (ls.flatMap (fun l => l ++ ['\n'])) = ls ++ [[]] := by
  induction ls with
  | nil => rfl
  | cons l rest ih =>
    rw [List.flatMap_cons]
    have : (l ++ ['\n']) ++ rest.flatMap (fun l => l ++ ['\n']) =
        l ++ '\n' :: rest.flatMap (fun l => l ++ ['\n']) := by
      simp
    rw [this, splitLines_no_nl l (h l (List.mem_cons_self _ _)) _]
    rw [ih (fun l' hm => h l' (List.mem_cons_of_mem _ hm))]
    rfl

lemma writeSectionLines_no_nl (s : PyStr) (es : Entries) (hs : goodSectName s)
    (hgood : ∀ kv ∈ es, goodKey kv.1 ∧ goodValue kv.2) :
    ∀ l ∈ writeSectionLines s es, '\n' ∉ l := by
  intro l hm
  unfold writeSectionLines at hm
  rcases List.mem_cons.mp hm with rfl | hm2
  · intro hc
    rcases List.mem_cons.mp hc with he | hc2
    · exact absurd he (by decide)
    · rcases List.mem_append.mp hc2 with hin | hin
      · exact hs.2.2.2 hin
      · simp at hin
  · rcases List.mem_append.mp hm2 with hin | hin
    · obtain ⟨kv, hkv, rfl⟩ := List.mem_map.mp hin
      obtain ⟨hk, hv⟩ := hgood kv hkv
      rw [replaceNlTab_id kv.2 (fun hc => (by simpa using hv.2 hc))]
      intro hc
      rcases List.mem_append.mp hc with hin2 | hin2
      · exact ((hk.2.2.2.1 _ hin2).1 rfl).elim
      · rcases List.mem_cons.mp hin2 with he | hin3
        · exact absurd he (by decide)
        · rcases List.mem_cons.mp hin3 with he | hin4
          · exact absurd he (by decide)
          · rcases List.mem_cons.mp hin4 with he | hin5
            · exact absurd he (by decide)
            · exact (hv.2 hin5).elim
    · simp only [List.mem_singleton] at hin
      subst hin
      simp

lemma intercalateNl_cons (p : PyStr) (ps : List PyStr) (h : ps ≠ []) :
    intercalateNl (p :: ps) = p ++ '\n' :: intercalateNl ps := by
  cases ps with
  | nil => exact absurd rfl h
  | cons q qs => rfl

lemma joinParts_single (v : PyStr) (h : pyRStrip v = v) : joinParts [v] = v := by
  simp [joinParts, intercalateNl, h]

lemma joinParts_pair_nil (v : PyStr) (h : pyRStrip v = v) : joinParts [v, []] = v := by
  unfold joinParts
  rw [intercalateNl_cons v [[]] (by simp)]
  rw [show intercalateNl [[]] = ([] : PyStr) from rfl]
  rw [show v ++ '\n' :: ([] : PyStr) = v ++ ['\n'] from rfl]
  rw [pyRStrip_append_ws _ _ (by decide), h]

lemma partsOf_join : ∀ (es : Entries), (∀ kv ∈ es, goodValue kv.2) →
    finSection (partsOf es) = es
  | [], _ => rfl
  | [kv], h => by
    have hv := h kv (List.mem_cons_self _ _)
    have hr := (pyStrip_parts _ hv.1).2
    show (kv.1, joinParts [kv.2, []]) :: [] = [kv]
    rw [joinParts_pair_nil kv.2 hr]
  | kv0 :: kv1 :: rest, h => by
    have hv0 := h kv0 (List.mem_cons_self _ _)
    have hr0 := (pyStrip_parts _ hv0.1).2
    have ihres := partsOf_join (kv1 :: rest)
      (fun kv hm => h kv (List.mem_cons_of_mem _ hm))
    show (kv0.1, joinParts [kv0.2]) :: finSection (partsOf (kv1 :: rest)) =
      kv0 :: kv1 :: rest
    rw [joinParts_single kv0.2 hr0, ihres]

lemma partsOf_nonnil : ∀ (es : Entries), ∀ q ∈ partsOf es, q.2 ≠ []
  | [], _, hm => by simp [partsOf] at hm
  | [kv], q, hm => by
    simp only [partsOf, List.mem_singleton] at hm
    subst hm
    simp
  | kv0 :: kv1 :: rest, q, hm => by
    rcases List.mem_cons.mp hm with rfl | hm2
    · simp
    · exact partsOf_nonnil (kv1 :: rest) q hm2

lemma joinParts_append_nil (ps : List PyStr) (h : ps ≠ []) :
    joinParts (ps ++ [[]]) = joinParts ps := by
  unfold joinParts
  have hinter : intercalateNl (ps ++ [[]]) = intercalateNl ps ++ ['\n'] := by
    induction ps with
    | nil => exact absurd rfl h
    | cons p qs ih =>
      cases qs with
      | nil => rfl
      | cons q0 qs0 =>
        rw [show (p :: q0 :: qs0) ++ [[]] = p :: ((q0 :: qs0) ++ [[]]) from rfl]
        rw [intercalateNl_cons p ((q0 :: qs0) ++ [[]]) (by simp)]
        rw [intercalateNl_cons p (q0 :: qs0) (by simp)]
        rw [ih (by simp)]
        simp
  rw [hinter, pyRStrip_append_ws _ _ (by decide)]

lemma finSection_partsAppend_nil (k : PyStr) :
    ∀ (P : AList (List PyStr)), (∀ q ∈ P, q.2 ≠ []) →
    finSection (partsAppend P k []) = finSection P
  | [], _ => rfl
  | q :: r, h => by
    rw [partsAppend]
    by_cases hq : q.1 = k
    · rw [if_pos hq]
      show (q.1, joinParts (q.2 ++ [[]])) :: finSection r = (q.1, joinParts q.2) :: finSection r
      rw [joinParts_append_nil q.2 (h q (List.mem_cons_self _ _))]
    · rw [if_neg hq]
      show (q.1, joinParts q.2) :: finSection (partsAppend r k []) =
        (q.1, joinParts q.2) :: finSection r
      rw [finSection_partsAppend_nil k r (fun q' hm => h q' (List.mem_cons_of_mem _ hm))]

lemma finAll_partsOf : ∀ (secs : List (PyStr × Entries)),
    (∀ se ∈ secs, ∀ kv ∈ se.2, goodValue kv.2) →
    (secs.map (fun se => (se.1, partsOf se.2))).map (fun se => (se.1, finSection se.2)) =
      secs
  | [], _ => rfl
  | se :: rest, h => by
    simp only [List.map_cons]
    rw [partsOf_join se.2 (h se (List.mem_cons_self _ _))]
    rw [finAll_partsOf rest (fun se' hm => h se' (List.mem_cons_of_mem _ hm))]

lemma odLookup_of_mem_nodup {β : Type} : ∀ (A : AList β) (s : PyStr) (e : β),
    (A.map Prod.fst).Nodup → (s, e) ∈ A → odLookup A s = some e
  | [], _, _, _, hm => by simp at hm
  | (k0, v0) :: r, s, e, hnodup, hm => by
    rcases List.mem_cons.mp hm with heq | hm2
    · have h1 : s = k0 := congrArg Prod.fst heq
      have h2 : e = v0 := congrArg Prod.snd heq
      subst h1
      subst h2
      simp [odLookup]
    · have hs : s ∈ r.map Prod.fst := List.mem_map_of_mem Prod.fst hm2
      have hne : ¬ k0 = s := by
        intro he
        simp only [List.map_cons, List.nodup_cons] at hnodup
        exact hnodup.1 (he ▸ hs)
      simp only [odLookup, hne, if_false]
      have hnodup' : (r.map Prod.fst).Nodup := by
        simp only [List.map_cons, List.nodup_cons] at hnodup
        exact hnodup.2
      exact odLookup_of_mem_nodup r s e hnodup' hm2

lemma finMap_odSet (k : PyStr) :
    ∀ (A : AList (AList (List PyStr))) (s : PyStr) (e : AList (List PyStr)),
    odLookup A s = some e → (∀ q ∈ e, q.2 ≠ []) →
    (odSet A s (partsAppend e k [])).map (fun se => (se.1, finSection se.2)) =
      A.map (fun se => (se.1, finSection se.2))
  | [], _, _, hl, _ => by simp [odLookup] at hl
  | (k0, v0) :: r, s, e, hl, hnn => by
    by_cases h0 : k0 = s
    · subst h0
      have he : v0 = e := by simpa [odLookup] using hl
      subst he
      rw [odSet, if_pos rfl]
      simp only [List.map_cons]
      rw [finSection_partsAppend_nil k v0 hnn]
    · simp only [odLookup, h0, if_false] at hl
      simp only [odSet, h0, if_false, List.map_cons]
      rw [finMap_odSet k r s e hl hnn]

lemma final_step (secs : List (PyStr × Entries)) (so : List (PyStr × PyStr))
    (hnodup : (secs.map Prod.fst).Nodup)
    (hgood : ∀ se ∈ secs, goodSectName se.1 ∧ (se.2.map Prod.fst).Nodup ∧
      ∀ kv ∈ se.2, goodKey kv.1 ∧ goodValue kv.2) :
    finalizeState (appendCont ⟨[], secs.map (fun se => (se.1, partsOf se.2)),
        (secs.getLast?).elim none (fun se => some se.1),
        (secs.getLast?).elim none
          (fun se => (se.2.getLast?).elim none (fun kv => some kv.1)),
        0, secs.map Prod.fst, so, false⟩ []) = .ok ⟨[], secs⟩ := by
  have hvals : ∀ se ∈ secs, ∀ kv ∈ se.2, goodValue kv.2 :=
    fun se hm kv hkv => ((hgood se hm).2.2 kv hkv).2
  cases hl : secs.getLast? with
  | none =>
    have hnil : secs = [] := by
      cases secs with
      | nil => rfl
      | cons a b => simp [List.getLast?_eq_getLast] at hl
    subst hnil
    simp [appendCont, finalizeState, finSection, Option.elim]
  | some seL =>
    have hmem : seL ∈ secs := List.mem_of_mem_getLast? hl
    obtain ⟨hsgood, hesnodup, hesgood⟩ := hgood seL hmem
    simp only [Option.elim]
    cases hl2 : seL.2.getLast? with
    | none =>
      have happ : appendCont ⟨[], secs.map (fun se => (se.1, partsOf se.2)),
          some seL.1, none, 0, secs.map Prod.fst, so, false⟩ [] =
          ⟨[], secs.map (fun se => (se.1, partsOf se.2)),
          some seL.1, none, 0, secs.map Prod.fst, so, false⟩ := rfl
      rw [happ]
      unfold finalizeState
      simp only [Bool.false_eq_true, if_false]
      rw [finAll_partsOf secs hvals]
      rfl
    | some kvl =>
      have hkmem : kvl ∈ seL.2 := List.mem_of_mem_getLast? hl2
      have hkgood := (hesgood kvl hkmem).1
      have hko : ¬ kvl.1 = [] := hkgood.1
      have hlookL : odLookup (secs.map (fun se => (se.1, partsOf se.2))) seL.1 =
          some (partsOf seL.2) := by
        apply odLookup_of_mem_nodup
        · simpa [List.map_map, Function.comp] using hnodup
        · exact List.mem_map_of_mem (fun se => (se.1, partsOf se.2)) hmem
      unfold appendCont
      simp only [hko, if_false, hsgood.2.1, hlookL]
      unfold finalizeState
      simp only [Bool.false_eq_true, if_false]
      rw [finMap_odSet kvl.1 _ seL.1 (partsOf seL.2) hlookL (partsOf_nonnil seL.2)]
      rw [finAll_partsOf secs hvals]
      rfl

lemma writeLines_wf (st : ConfigStore) (h : WFStore st) :
    ∀ l ∈ writeLines st, '\n' ∉ l := by
  obtain ⟨hdf, _, hgood⟩ := h
  intro l hm
  unfold writeLines at hm
  rw [hdf] at hm
  simp only [if_pos rfl, List.nil_append] at hm
  obtain ⟨se, hse, hl⟩ := List.mem_flatMap.mp hm
  exact writeSectionLines_no_nl se.1 se.2 (hgood se hse).1
    (fun kv hkv => (hgood se hse).2.2 kv hkv) l hl

lemma parseFile_of_run (content : PyStr) (R : RState)
    (h : runLines initRState (splitLines content) = .ok R) :
    parseFile content = finalizeState R := by
  unfold parseFile
  rw [h]

lemma parse_write (st : ConfigStore) (h : WFStore st) :
    parseFile (writeConfig st) = .ok st := by
  obtain ⟨df, secs⟩ := st
  obtain ⟨hdf, hnodup, hgood⟩ := h
  simp only at hdf hnodup hgood
  subst hdf
  have hwl : writeLines ⟨[], secs⟩ =
      secs.flatMap (fun se => writeSectionLines se.1 se.2) := by
    unfold writeLines
    simp
  have hlines : splitLines (writeConfig ⟨[], secs⟩) =
      (secs.flatMap (fun se => writeSectionLines se.1 se.2)) ++ [[]] := by
    unfold writeConfig
    rw [splitLines_flat _ (writeLines_wf ⟨[], secs⟩ ⟨rfl, hnodup, hgood⟩), hwl]
  have hrun0 := run_sections ([] : AList (List PyStr)) secs [] none none []
    (by simpa using hnodup) hgood (fun se _ kv _ => by simp)
  simp only [List.map_nil, List.nil_append] at hrun0
  have hrun : runLines initRState (splitLines (writeConfig ⟨[], secs⟩)) =
      .ok (appendCont ⟨[], secs.map (fun se => (se.1, partsOf se.2)),
        (secs.getLast?).elim none (fun se => some se.1),
        (secs.getLast?).elim none
          (fun se => (se.2.getLast?).elim none (fun kv => some kv.1)),
        0, secs.map Prod.fst,
        secs.flatMap (fun se => se.2.map (fun kv => (se.1, kv.1))), false⟩ []) := by
    rw [hlines]
    rw [show (initRState : RState) = ⟨[], [], none, none, 0, [], [], false⟩ from rfl]
    rw [runLines_append_ok _ _ hrun0]
    rw [runLines_cons_ok _ _ (processLine_blank _)]
    simp only [runLines]
  rw [parseFile_of_run _ _ hrun]
  exact final_step secs _ hnodup hgood

/-! ### The claims -/

/-- C1 (counterexample): a store built by the single operation
`add_key('S', 'k', ' v ')` answers `get_key('S', 'k')` with `' v '`
before saving, but after `save_config` and a fresh load the reader has
stripped the value's surrounding whitespace, so the same call returns
`'v'`: the round-trip claim fails for this add sequence. -/
theorem claim1_counterexample :
    add_key emptyStore (pys "S") (pys "k") (pys " v ") = .ok c1bad ∧
    get_key c1bad (pys "S") (pys "k") () = .inl (pys " v ") ∧
    get_key (loadConfig (some (writeConfig c1bad))) (pys "S") (pys "k") () = .inl (pys "v") ∧
    get_key (loadConfig (some (writeConfig c1bad))) (pys "S") (pys "k") () ≠
      get_key c1bad (pys "S") (pys "k") () := by
  refine ⟨by decide, by decide, by decide, by decide⟩

/-- C1 (amended): for every well-formed store (`WFStore`: empty `DEFAULT`
pseudo-section, distinct section names free of `]` and newlines, distinct
lowercase keys free of delimiters, whitespace edges and comment-prefix
heads, values with no surrounding whitespace and no newlines), calling
`save_config` and then constructing a fresh manager from the same path
yields a store in which every `get_key(section, key)` call returns the
same value it returned before saving. -/
theorem claim1_roundtrip_wellformed (st : ConfigStore) (h : WFStore st)
    (s k : PyStr) {α : Type} (d : α) :
    get_key (loadConfig (some (writeConfig st))) s k d = get_key st s k d := by
  simp only [loadConfig, parse_write st h]

/-- C1 witness: the amended round-trip claim at a concrete two-key store. -/
theorem claim1_witness :
    WFStore c1demo ∧
    get_key (loadConfig (some (writeConfig c1demo))) (pys "Database") (pys "host") () =
      get_key c1demo (pys "Database") (pys "host") () :=
  ⟨by decide,
    claim1_roundtrip_wellformed c1demo (by decide) (pys "Database") (pys "host") ()⟩

/-- C2 (counterexample): when file writing fails, `save_config` catches
the exception and returns normally — the very same `None` result as a
successful save — so no failure result reaches the caller. -/
theorem claim2_counterexample :
    save_config emptyStore .writeError = (.ok (), emptyStore, none) ∧
    (save_config emptyStore .writeError).1 = (save_config emptyStore .success).1 :=
  ⟨rfl, rfl⟩

/-- C2 (amended): a failed `save_config` (directory creation or write
error) raises nothing and returns `None` exactly as on success — the
failure is only printed, not reported as a result — and the in-memory
configuration state is unchanged by the call. -/
theorem claim2_save_failure_swallowed (st : ConfigStore) (o : SaveOutcome) :
    (save_config st o).1 = .ok () ∧ (save_config st o).2.1 = st := by
  cases o <;> exact ⟨rfl, rfl⟩

/-- C3 (code evaluated at the failing input): `remove_key` on a store
with no section `'Missing'` propagates `configparser.NoSectionError`
raised by `has_option`, instead of returning `False` as its docstring
and the spec promise. -/
theorem claim3_missing_section_raises :
    remove_key emptyStore (pys "Missing") (pys "k") =
      .error (.noSection (pys "Missing")) := by
  decide

/-- C4 (counterexample): key names are not case-sensitive.  After
`add_key('S', 'Key', 'v')` the store holds the lowercased key `key`,
and `get_key('S', 'key', default)` returns `'v'`, not the default. -/
theorem claim4_counterexample :
    add_key emptyStore (pys "S") (pys "Key") (pys "v") = .ok c4store ∧
    get_key c4store (pys "S") (pys "key") () = .inl (pys "v") ∧
    get_key c4store (pys "S") (pys "key") () ≠ .inr () := by
  refine ⟨by decide, by decide, by decide⟩

/-- C4 (amended): section names are case-sensitive but key names are
case-insensitive (lowercased by `optionxform`): for any store with no
section `'s'`, after `add_key('S', 'Key', 'v')` the differently-cased
lookup `get_key('S', 'key', d)` returns `'v'`, while the
differently-cased section lookup `get_key('s', 'key', d)` returns the
default. -/
theorem claim4_sections_case_sensitive_keys_not {α : Type} (st : ConfigStore) (d : α)
    (h : odLookup st.sections (pys "s") = none) :
    ∃ st', add_key st (pys "S") (pys "Key") (pys "v") = .ok st' ∧
      get_key st' (pys "S") (pys "key") d = .inl (pys "v") ∧
      get_key st' (pys "s") (pys "key") d = .inr d := by
  obtain ⟨e, _, hadd⟩ :=
    add_key_ok st (pys "S") (pys "Key") (pys "v") (by decide) (by decide) (by decide)
  refine ⟨_, hadd, ?_, ?_⟩
  · exact get_key_set st e _ _ _ _ d (by decide) (by decide)
  · refine get_key_absent _ _ _ _ ?_ (by decide)
    rw [afterAdd_lookup_ne st e _ _ _ _ (by decide)]
    exact h

/-- C4 witness: the amended case-sensitivity statement holds at the
empty store. -/
theorem claim4_witness :
    odLookup emptyStore.sections (pys "s") = none ∧
    ∃ st', add_key emptyStore (pys "S") (pys "Key") (pys "v") = .ok st' ∧
      get_key st' (pys "S") (pys "key") () = .inl (pys "v") ∧
      get_key st' (pys "s") (pys "key") () = .inr () :=
  ⟨by decide, claim4_sections_case_sensitive_keys_not emptyStore () (by decide)⟩

/-- C5 (counterexample): `add_key('S', 'k', '%(nope)s')` succeeds and
stores the raw text, but the immediate `get_key('S', 'k', default)`
does not return it: interpolation raises
`InterpolationMissingOptionError`, which `get_key` collapses to the
default. -/
theorem claim5_counterexample :
    add_key emptyStore (pys "S") (pys "k") (pys "%(nope)s") = .ok c5bad ∧
    get_key c5bad (pys "S") (pys "k") () = .inr () ∧
    get_key c5bad (pys "S") (pys "k") () ≠ .inl (pys "%(nope)s") := by
  refine ⟨by decide, by decide, by decide⟩

/-- C5 (amended): for every store, every non-empty section name other
than the reserved `'DEFAULT'`, and every value whose string form
contains no `%`, `add_key` succeeds (creating the section when absent)
and the immediate `get_key(section, key)` returns that value. -/
theorem claim5_add_then_get {α : Type} (st : ConfigStore) (s k v : PyStr) (d : α)
    (hs1 : s ≠ []) (hs2 : s ≠ defaultSection) (hv : '%' ∉ v) :
    ∃ st', add_key st s k v = .ok st' ∧ has_section st' s = true ∧
      get_key st' s k d = .inl v := by
  obtain ⟨e, _, hadd⟩ := add_key_ok st s k v hs1 hs2 (beforeSetOk_no_pct v hv)
  refine ⟨_, hadd, ?_, ?_⟩
  · unfold has_section
    rw [afterAdd_lookup_self]
    rfl
  · exact get_key_set st e s k k v d hv rfl

/-- C5 witness: the amended add-then-get statement at a concrete input. -/
theorem claim5_witness :
    (pys "API") ≠ [] ∧ (pys "API") ≠ defaultSection ∧ '%' ∉ (pys "30") ∧
    ∃ st', add_key emptyStore (pys "API") (pys "timeout_seconds") (pys "30") = .ok st' ∧
      has_section st' (pys "API") = true ∧
      get_key st' (pys "API") (pys "timeout_seconds") () = .inl (pys "30") :=
  ⟨by decide, by decide, by decide,
    claim5_add_then_get emptyStore (pys "API") (pys "timeout_seconds") (pys "30") ()
      (by decide) (by decide) (by decide)⟩

/-- C6: constructing from a nonexistent path yields an empty store —
`get_section` answers the empty mapping and `get_key` the supplied
default, for every section and key. -/
theorem claim6_missing_file_empty {α : Type} (s k : PyStr) (d : α) :
    get_section (loadConfig none) s = .ok [] ∧
    get_key (loadConfig none) s k d = .inr d := by
  constructor
  · simp [loadConfig, get_section, has_section, emptyStore, odLookup]
  · unfold loadConfig get_key config_get unify_values
    by_cases hs : s = defaultSection <;>
      simp [emptyStore, odLookup, hs, chainLookup]

/-- C7: whenever the file contents fail to parse, the constructor
swallows the exception and the caller receives the empty store. -/
theorem claim7_malformed_resets (text : PyStr) (e : PyExc)
    (h : parseFile text = .error e) : loadConfig (some text) = emptyStore := by
  simp [loadConfig, h]

/-- C7 witness: a file with an option line before any section header
raises `MissingSectionHeaderError`, and loading it yields the empty
store. -/
theorem claim7_witness :
    parseFile (pys "key = value") = .error .missingHeader ∧
    loadConfig (some (pys "key = value")) = emptyStore :=
  ⟨by decide, claim7_malformed_resets (pys "key = value") .missingHeader (by decide)⟩

/-- C8: on any store, `add_key('S','k','v1')` then `add_key('S','k','v2')`
both succeed, `get_key('S','k',d)` then returns `'v2'`, and the position
of `'k'` in the iteration order of `get_section('S')` (its `orig_keys`)
is unchanged between the two calls — update-in-place, not move-to-end. -/
theorem claim8_update_in_place {α : Type} (st : ConfigStore) (d : α) :
    ∃ st1 st2, add_key st (pys "S") (pys "k") (pys "v1") = .ok st1 ∧
      add_key st1 (pys "S") (pys "k") (pys "v2") = .ok st2 ∧
      get_key st2 (pys "S") (pys "k") d = .inl (pys "v2") ∧
      sectionKeys st2 (pys "S") = sectionKeys st1 (pys "S") ∧
      (sectionKeys st2 (pys "S")).indexOf (pys "k") =
        (sectionKeys st1 (pys "S")).indexOf (pys "k") := by
  obtain ⟨e1, he1, h1⟩ :=
    add_key_ok st (pys "S") (pys "k") (pys "v1") (by decide) (by decide) (by decide)
  have hhas : has_section (afterAdd st e1 (pys "S") (pys "k") (pys "v1")) (pys "S") = true := by
    unfold has_section
    rw [afterAdd_lookup_self]
    rfl
  obtain ⟨e2, he2, h2⟩ :=
    add_key_ok (afterAdd st e1 (pys "S") (pys "k") (pys "v1"))
      (pys "S") (pys "k") (pys "v2") (by decide) (by decide) (by decide)
  rw [ensureSection_of_has _ _ hhas, afterAdd_lookup_self] at he2
  have he2' : e2 = odSet e1 (pyLower (pys "k")) (pys "v1") := by
    injection he2.symm
  have hkeys : sectionKeys (afterAdd (afterAdd st e1 (pys "S") (pys "k") (pys "v1")) e2
      (pys "S") (pys "k") (pys "v2")) (pys "S") =
      sectionKeys (afterAdd st e1 (pys "S") (pys "k") (pys "v1")) (pys "S") := by
    simp only [sectionKeys, afterAdd_lookup_self, afterAdd_defaults]
    rw [keys_odUpdate, keys_odUpdate]
    have hmem : pyLower (pys "k") ∈ e2.map Prod.fst := by
      rw [he2']
      exact mem_keys_odSet_self _ _ _
    rw [keys_odSet, if_pos hmem, he2']
  refine ⟨_, _, h1, h2, ?_, hkeys, by rw [hkeys]⟩
  exact get_key_set _ e2 _ _ _ _ d (by decide) rfl

/-- C9: `get_key` is total — for every store state and arguments it
either returns the default or the value that the underlying
`config.get` successfully produced; every exception (missing section,
missing option, interpolation failures) collapses to the default. -/
theorem claim9_get_key_total {α : Type} (st : ConfigStore) (s k : PyStr) (d : α) :
    get_key st s k d = .inr d ∨
    ∃ v, config_get st s k = .ok v ∧ get_key st s k d = .inl v := by
  cases h : config_get st s k with
  | ok v =>
    right
    exact ⟨v, h ▸ rfl, by simp [get_key, h]⟩
  | error e =>
    left
    simp [get_key, h]

/-- C10: with no ordinary section named `DEFAULT` present,
`add_key('DEFAULT', k, v)` reaches `add_section('DEFAULT')`, which
raises `ValueError` instead of creating the section. -/
theorem claim10_default_section_rejected (st : ConfigStore) (k v : PyStr)
    (h : has_section st defaultSection = false) :
    add_key st defaultSection k v = .error .valueErr := by
  simp [add_key, h, add_section]

/-- C10 witness: at the empty store (where `has_section('DEFAULT')` is
false, as in every store reachable through this API). -/
theorem claim10_witness :
    has_section emptyStore defaultSection = false ∧
    add_key emptyStore defaultSection (pys "k") (pys "v") = .error .valueErr :=
  ⟨by decide, claim10_default_section_rejected emptyStore (pys "k") (pys "v") (by decide)⟩

end Mycongif
